import Mathlib

/-!
Verification development for `wabbajack_cleaner.py` (version 0.3.0).

The Python source is shallowly embedded as executable Lean definitions:

* `parseMetaFlag` / `parseMetaFlags` embed `ModArchive.__parse_meta` (the
  `installed` / `removed` flag extraction from the `General` section).
* `ModArchive.remove` embeds `ModArchive.remove` (deletion policy).
* `strContains`, `passesTypeFilter`, `iterArchives` embed
  `Modlist.__iter_archives` (the `$type` substring filter).
* `parseStep`, `parseGo`, `parseModlist` embed `Modlist.__parse_modlist`
  (index construction with fatal duplicate/missing-field checks; `sys.exit`
  is modelled as `Except.error`).
* `splitextExt`, `downloadsGo`, `downloadsInit` embed `Downloads.__init__`.
* `getHash`, `reconcileArch`, `reconcileAll`, `foundList`, `foundSize`,
  `deleteLoop`, `mainRun`, `runPipeline` embed the reconciliation and
  deletion phases of `main`.

File contents are abstracted by a `fingerprint` field holding the value the
xxh64/base64 hashing of the file bytes would produce; the lazy memoisation
cell `self.hash` (initially `None`) is threaded explicitly as an
`Option String` state, so that "the hash was never computed" is the
observable fact that the state is still `none`.
-/

/-- One key/value section of a sidecar `.meta` file, as decoded by
`configparser` (the `General` section): an association list of keys to
string values. -/
def MetaSection : Type := List (String × String)

/-- Embeds the flag extraction of `ModArchive.__parse_meta`: if the key is
present the flag is the boolean `value == "true"`, otherwise the Python code
stores `None` (the unknown sentinel), modelled as `none`. -/
def parseMetaFlag (general : List (String × String)) (key : String) : Option Bool :=
  match general.lookup key with
  | some v => some (v == "true")
  | none => none

/-- Embeds `ModArchive.__parse_meta`: the pair of `installed` and `removed`
flags read from the `General` section. -/
def parseMetaFlags (general : List (String × String)) : Option Bool × Option Bool :=
  (parseMetaFlag general "installed", parseMetaFlag general "removed")

/-- Embeds the state of a constructed `ModArchive`: path, sidecar path,
filename, size, the content fingerprint its bytes would hash to, and the
two sidecar flags (`None` = unknown). -/
structure ModArchive where
  path : String
  meta_path : String
  name : String
  file_size : Nat
  fingerprint : String
  m_installed : Option Bool
  m_removed : Option Bool
  deriving DecidableEq

/-- Aggregate filesystem effect of one `ModArchive.remove` call: the list of
paths passed to `os.remove`, and whether the `Cannot delete installed mod`
refusal was logged. -/
structure RemoveResult where
  deleted : List String
  refused : Bool
  deriving DecidableEq

/-- Embeds `ModArchive.remove` (lines 131-150): an installed mod is deleted
only under `force_delete` and otherwise refused; a mod that is not marked
installed is deleted exactly when its sidecar marks it `removed`. -/
def ModArchive.remove (a : ModArchive) (force_delete : Bool) : RemoveResult :=
  match a.m_installed with
  | some true =>
    if force_delete = true then
      { deleted := [a.path, a.meta_path], refused := false }
    else
      { deleted := [], refused := true }
  | _ =>
    match a.m_removed with
    | some true => { deleted := [a.path, a.meta_path], refused := false }
    | _ => { deleted := [], refused := false }

/-- The `State` object of a manifest archive record: its optional
`$type` discriminator string. -/
structure StateRec where
  dollarType : Option String
  deriving DecidableEq

/-- One record of the manifest's `Archives` list, with the fields the
program reads: optional `Name`, `Hash` and `State`. -/
structure ModRecord where
  name : Option String
  hash : Option String
  state : Option StateRec
  deriving DecidableEq

/-- Whether `needle` is an initial segment of `hay`. -/
def charsStartsWith : List Char → List Char → Bool
  | [], _ => true
  | _ :: _, [] => false
  | a :: as, b :: bs => a == b && charsStartsWith as bs

/-- Whether `needle` occurs contiguously in `hay`. -/
def charsContains (needle : List Char) : List Char → Bool
  | [] => charsStartsWith needle []
  | b :: bs => charsStartsWith needle (b :: bs) || charsContains needle bs

/-- Python's substring test `needle in hay`. -/
def strContains (hay needle : String) : Bool :=
  charsContains needle.data hay.data

/-- Embeds the filter of `Modlist.__iter_archives` (lines 200-215): a record
is yielded only if it has a `State` with a `$type` containing both
`NexusDownloader` and `Wabbajack.Lib`. -/
def passesTypeFilter (r : ModRecord) : Bool :=
  match r.state with
  | none => false
  | some st =>
    match st.dollarType with
    | none => false
    | some t => strContains t "NexusDownloader" && strContains t "Wabbajack.Lib"

/-- Embeds `Modlist.__iter_archives`: the sequence of records the indexing
loop actually sees. -/
def iterArchives (archives : List ModRecord) : List ModRecord :=
  archives.filter passesTypeFilter

/-- The two lookup mappings built by `Modlist.__parse_modlist`
(`modlist_by_file` and `modlist_by_hash`), as association lists; the
duplicate checks of the source keep their keys unique. -/
structure ModlistIndex where
  byFile : List (String × ModRecord)
  byHash : List (String × ModRecord)
  deriving DecidableEq

/-- Embeds one iteration of the loop body of `Modlist.__parse_modlist`
(lines 226-249): missing `Name`/`Hash` or a duplicate key is a fatal error
(`sys.exit`), otherwise the record is added to both mappings. -/
def parseStep (idx : ModlistIndex) (mod : ModRecord) : Except String ModlistIndex :=
  match mod.name with
  | none => .error "Mod JSON contains no Name attribute"
  | some name =>
    match idx.byFile.lookup name with
    | some _ => .error "Duplicate Name entry found in modlist JSON"
    | none =>
      match mod.hash with
      | none => .error "Mod JSON contains no Hash attribute"
      | some h =>
        match idx.byHash.lookup h with
        | some _ => .error "Duplicate Hash entry found in modlist JSON"
        | none => .ok { byFile := (name, mod) :: idx.byFile, byHash := (h, mod) :: idx.byHash }

/-- The indexing loop of `Modlist.__parse_modlist`, run over a record list. -/
def parseGo (idx : ModlistIndex) : List ModRecord → Except String ModlistIndex
  | [] => .ok idx
  | mod :: rest =>
    match parseStep idx mod with
    | .error e => .error e
    | .ok idx' => parseGo idx' rest

/-- Embeds `Modlist.__parse_modlist`: build the name and hash mappings from
the records passing the `__iter_archives` filter, failing fatally on any
missing field or duplicate key. -/
def parseModlist (archives : List ModRecord) : Except String ModlistIndex :=
  parseGo { byFile := [], byHash := [] } (iterArchives archives)

/-- Embeds `Modlist.get_mod_by_file` (lines 338-341). -/
def getModByFile (idx : ModlistIndex) (file : String) : Option ModRecord :=
  idx.byFile.lookup file

/-- Embeds `Modlist.get_mod_by_hash` (lines 343-346). -/
def getModByHash (idx : ModlistIndex) (file_hash : String) : Option ModRecord :=
  idx.byHash.lookup file_hash

/-- Embeds `ModArchive.get_hash` (lines 125-129) acting on the memoisation
cell `self.hash`: if the cell is empty the file is hashed (producing the
archive's fingerprint) and the cell filled, otherwise the cached value is
returned. The returned pair is (value, new cell state). -/
def getHash (a : ModArchive) (st : Option String) : String × Option String :=
  match st with
  | some h => (h, some h)
  | none => (a.fingerprint, some a.fingerprint)

/-- Embeds one iteration of the reconciliation loop in `main`
(lines 443-455) on an archive whose memoisation cell is `st`: name lookup
first; on failure the hash is computed and looked up; on failure again the
archive is flagged (`keep = false`, i.e. appended to `found`; the warning
log calls `get_hash` once more, hitting the memo). Returns
(keep, final cell state). -/
def reconcileArch (idx : ModlistIndex) (a : ModArchive) (st : Option String) :
    Bool × Option String :=
  match getModByFile idx a.name with
  | some _ => (true, st)
  | none =>
    let p := getHash a st
    match getModByHash idx p.1 with
    | some _ => (true, p.2)
    | none =>
      let q := getHash a p.2
      (false, q.2)

/-- The reconciliation loop of `main` over all downloaded archives; each
`ModArchive` starts with an empty memoisation cell (`self.hash = None` in
`__init__`, line 98). -/
def reconcileAll (idx : ModlistIndex) (mods : List ModArchive) :
    List (ModArchive × Bool × Option String) :=
  mods.map (fun a => (a, reconcileArch idx a none))

/-- The `found` list of `main`: archives flagged unreferenced
(`keep = false`), in scan order. -/
def foundList (idx : ModlistIndex) (mods : List ModArchive) : List ModArchive :=
  (reconcileAll idx mods).filterMap (fun x => if x.2.1 = true then none else some x.1)

/-- The `found_size` accumulator of `main`: total byte size of the
unreferenced archives. -/
def foundSize (idx : ModlistIndex) (mods : List ModArchive) : Nat :=
  ((foundList idx mods).map ModArchive.file_size).sum

/-- Embeds the deletion loop of `main` (lines 462-468): under `--dry-run`
each decision is only logged; otherwise `ModArchive.remove` runs on each
found archive. Returns the list of all removed paths and the number of
refused (installed, unforced) deletions. -/
def deleteLoop (dry_run force_delete : Bool) : List ModArchive → List String × Nat
  | [] => ([], 0)
  | a :: rest =>
    if dry_run = true then
      deleteLoop dry_run force_delete rest
    else
      let r := ModArchive.remove a force_delete
      let t := deleteLoop dry_run force_delete rest
      (r.deleted ++ t.1, (if r.refused = true then 1 else 0) + t.2)

/-- Observable outcome of one `main` run after modlist and downloads are
built: the unreferenced archives and their total size, the paths actually
removed, the number of refused deletions, and whether the
`All is clean. Nothing to do.` branch was taken. -/
structure RunResult where
  found : List ModArchive
  found_size : Nat
  deleted : List String
  refusals : Nat
  all_clean : Bool
  deriving DecidableEq

/-- Embeds the reconciliation and deletion phases of `main`
(lines 441-470). -/
def mainRun (idx : ModlistIndex) (mods : List ModArchive) (dry_run force_delete : Bool) :
    RunResult :=
  let found := foundList idx mods
  let fsize := foundSize idx mods
  if 0 < found.length then
    let t := deleteLoop dry_run force_delete found
    { found := found, found_size := fsize, deleted := t.1, refusals := t.2, all_clean := false }
  else
    { found := found, found_size := fsize, deleted := [], refusals := 0, all_clean := true }

/-- Applying a list of removed paths to a directory listing: the files that
survive the run. -/
def applyRemovals (disk : List String) (removals : List String) : List String :=
  disk.filter (fun f => !(removals.contains f))

/-- The archive extension whitelist of `Downloads.__init__` (line 170)
and `ModArchive.__init__` (line 107). -/
def archiveExts : List String := [".7z", ".rar", ".zip"]

/-- Splits a character list at its last dot: `some (before, after)` when a
dot exists, with `after` the characters behind the last dot. -/
def lastSplitDot : List Char → Option (List Char × List Char)
  | [] => none
  | c :: rest =>
    match lastSplitDot rest with
    | some (b, a) => some (c :: b, a)
    | none => if c == '.' then some ([], rest) else none

/-- Embeds the extension component of `os.path.splitext`: the suffix from
the last dot, except that a basename consisting only of leading dots before
that dot has no extension. -/
def splitextExt (name : String) : String :=
  match lastSplitDot name.data with
  | none => ""
  | some (before, after) =>
    if before.any (fun c => c != '.') then String.mk ('.' :: after) else ""

/-- Embeds the scan loop of `Downloads.__init__` (lines 166-178): files
without a whitelisted archive extension are skipped; a repeated dictionary
key (joined path) is a fatal duplicate error; otherwise a `ModArchive` is
constructed for the path and inserted. `mkArch` stands for the
`ModArchive(file)` constructor reading the filesystem at that path. -/
def downloadsGo (directory : String) (mkArch : String → ModArchive)
    (acc : List (String × ModArchive)) :
    List String → Except String (List (String × ModArchive))
  | [] => .ok acc
  | file :: rest =>
    if archiveExts.contains (splitextExt file) = false then
      downloadsGo directory mkArch acc rest
    else
      let path := directory ++ "/" ++ file
      match acc.lookup path with
      | some _ => .error "Duplicate mod file entry was found"
      | none => downloadsGo directory mkArch (acc ++ [(path, mkArch path)]) rest

/-- Embeds `Downloads.__init__` on a directory listing. -/
def downloadsInit (directory : String) (mkArch : String → ModArchive)
    (files : List String) : Except String (List (String × ModArchive)) :=
  downloadsGo directory mkArch [] files

/-- Whether an `Except` value is a success. -/
def exceptIsOk {ε α : Type} : Except ε α → Bool
  | .ok _ => true
  | .error _ => false

/-- Embeds the sequencing of `main` (lines 438-470): the modlist is parsed
first, then the download directory is scanned, and only then does
reconciliation run; a fatal error (`sys.exit`) in either phase ends the run
before any reconciliation result exists. -/
def runPipeline (archives : List ModRecord) (directory : String) (files : List String)
    (mkArch : String → ModArchive) (dry_run force_delete : Bool) :
    Except String RunResult :=
  match parseModlist archives with
  | .error e => .error e
  | .ok idx =>
    match downloadsInit directory mkArch files with
    | .error e => .error e
    | .ok dl => .ok (mainRun idx (dl.map (fun p => p.2)) dry_run force_delete)

/-! ## Helper lemmas -/

theorem foundList_eq_filter (idx : ModlistIndex) (mods : List ModArchive) :
    foundList idx mods = mods.filter (fun a => !(reconcileArch idx a none).1) := by
  induction mods with
  | nil => rfl
  | cons a rest ih =>
    simp only [foundList, reconcileAll, List.map_cons, List.filterMap_cons, List.filter_cons]
    cases h : (reconcileArch idx a none).1 with
    | false =>
      simp only [h, Bool.not_false, if_neg Bool.false_ne_true, if_pos rfl]
      exact congrArg (a :: ·) (by simpa [foundList, reconcileAll] using ih)
    | true =>
      simp only [h, Bool.not_true, if_pos rfl, if_neg Bool.false_ne_true]
      simpa [foundList, reconcileAll] using ih

theorem reconcileArch_false_iff (idx : ModlistIndex) (a : ModArchive) :
    (reconcileArch idx a none).1 = false ↔
      getModByFile idx a.name = none ∧ getModByHash idx a.fingerprint = none := by
  unfold reconcileArch
  cases hf : getModByFile idx a.name with
  | some m => simp [hf]
  | none =>
    simp only [hf, getHash]
    cases hh : getModByHash idx a.fingerprint with
    | some m => simp [hh]
    | none => simp [hh]

theorem deleteLoop_dry (force_delete : Bool) (l : List ModArchive) :
    deleteLoop true force_delete l = ([], 0) := by
  induction l with
  | nil => rfl
  | cons a rest ih => simp [deleteLoop, ih]

/-! ## Claims -/

/-- Claim C1: a downloaded archive is flagged unreferenced (`keep = false`,
added to the deletion-candidate list `found`) if and only if both the name
lookup and the hash lookup against the manifest index fail; an archive
matched by name or by hash is never flagged. -/
theorem c1_unreferenced_iff (idx : ModlistIndex) (mods : List ModArchive) (a : ModArchive) :
    ((reconcileArch idx a none).1 = false ↔
      getModByFile idx a.name = none ∧ getModByHash idx a.fingerprint = none) ∧
    (a ∈ foundList idx mods ↔ a ∈ mods ∧
      getModByFile idx a.name = none ∧ getModByHash idx a.fingerprint = none) := by
  refine ⟨reconcileArch_false_iff idx a, ?_⟩
  rw [foundList_eq_filter, List.mem_filter]
  constructor
  · rintro ⟨hm, hp⟩
    refine ⟨hm, (reconcileArch_false_iff idx a).mp ?_⟩
    cases h : (reconcileArch idx a none).1 with
    | false => rfl
    | true => rw [h] at hp; exact absurd hp (by decide)
  · rintro ⟨hm, hcond⟩
    refine ⟨hm, ?_⟩
    rw [(reconcileArch_false_iff idx a).mpr hcond]
    rfl

/-- Claim C3: an archive whose filename is a key of the manifest's name
mapping is classified Referenced (`keep = true`) and its content hash is
never computed: the memoisation cell is still empty (`none`) afterwards,
and the archive never reaches the `found` deletion-candidate list. -/
theorem c3_name_match_skips_hash (idx : ModlistIndex) (a : ModArchive) (m : ModRecord)
    (h : getModByFile idx a.name = some m) :
    reconcileArch idx a none = (true, none) ∧
    ∀ mods : List ModArchive, a ∉ foundList idx mods := by
  have hrec : reconcileArch idx a none = (true, none) := by
    unfold reconcileArch
    rw [h]
  refine ⟨hrec, fun mods hmem => ?_⟩
  rw [foundList_eq_filter, List.mem_filter, hrec] at hmem
  exact absurd hmem.2 (by decide)

/-- Concrete exercise of C3: a one-record index matching `foo.zip` by name. -/
def c3idx : ModlistIndex :=
  { byFile := [("foo.zip", { name := some "foo.zip", hash := some "H1", state := none })],
    byHash := [("H1", { name := some "foo.zip", hash := some "H1", state := none })] }

/-- Concrete archive named `foo.zip` with fingerprint `H1`. -/
def c3arch : ModArchive :=
  { path := "dl/foo.zip", meta_path := "dl/foo.zip.meta", name := "foo.zip",
    file_size := 100, fingerprint := "H1", m_installed := none, m_removed := none }

/-- Witness for C3 at a concrete name-matched archive. -/
theorem c3_witness :
    reconcileArch c3idx c3arch none = (true, none) ∧
    ∀ mods : List ModArchive, c3arch ∉ foundList c3idx mods :=
  c3_name_match_skips_hash c3idx c3arch
    { name := some "foo.zip", hash := some "H1", state := none } (by decide)

/-- Claim C2: `remove(force)` deletes both the archive file and its sidecar
iff either the sidecar marks the mod installed and the force flag is set,
or the mod is not marked installed (unknown or false) and the sidecar marks
it removed; an installed mod without force is refused with nothing deleted;
in every other case nothing is deleted; and a refusal does not abort the
deletion loop, which continues over the remaining archives. -/
theorem c2_remove_policy (a : ModArchive) (force_delete : Bool) (rest : List ModArchive) :
    ((a.remove force_delete).deleted = [a.path, a.meta_path] ↔
      (a.m_installed = some true ∧ force_delete = true) ∨
      (a.m_installed ≠ some true ∧ a.m_removed = some true)) ∧
    ((a.remove force_delete).refused = true ↔
      (a.m_installed = some true ∧ force_delete = false)) ∧
    ((a.remove force_delete).deleted = [] ∨
      (a.remove force_delete).deleted = [a.path, a.meta_path]) ∧
    (deleteLoop false force_delete (a :: rest) =
      ((a.remove force_delete).deleted ++ (deleteLoop false force_delete rest).1,
       (if (a.remove force_delete).refused = true then 1 else 0) +
         (deleteLoop false force_delete rest).2)) := by
  refine ⟨?_, ?_, ?_, by simp [deleteLoop]⟩
  · unfold ModArchive.remove
    rcases hi : a.m_installed with _ | b
    · rcases hr : a.m_removed with _ | c
      · simp
      · cases c <;> simp
    · cases b
      · rcases hr : a.m_removed with _ | c
        · simp
        · cases c <;> simp
      · cases force_delete <;> simp
  · unfold ModArchive.remove
    rcases hi : a.m_installed with _ | b
    · rcases hr : a.m_removed with _ | c
      · simp
      · cases c <;> simp
    · cases b
      · rcases hr : a.m_removed with _ | c
        · simp
        · cases c <;> simp
      · cases force_delete <;> simp
  · unfold ModArchive.remove
    rcases hi : a.m_installed with _ | b
    · rcases hr : a.m_removed with _ | c
      · simp
      · cases c <;> simp
    · cases b
      · rcases hr : a.m_removed with _ | c
        · simp
        · cases c <;> simp
      · cases force_delete <;> simp

/-- Claim C6: under the dry-run flag no file is removed: the run's removal
list is empty and the download directory's file set is unchanged. -/
theorem c6_dry_run_no_mutation (idx : ModlistIndex) (mods : List ModArchive)
    (force_delete : Bool) (disk : List String) :
    (mainRun idx mods true force_delete).deleted = [] ∧
    applyRemovals disk (mainRun idx mods true force_delete).deleted = disk := by
  have hdel : (mainRun idx mods true force_delete).deleted = [] := by
    unfold mainRun
    by_cases h : 0 < (foundList idx mods).length
    · simp [h, deleteLoop_dry]
    · simp [h]
  refine ⟨hdel, ?_⟩
  rw [hdel]
  unfold applyRemovals
  simp

/-- Claim C7: a sidecar `General` section lacking the `installed` key
(respectively the `removed` key) yields the unknown sentinel `none` for that
flag, never `false`; the sentinel is distinguishable from `some false`. -/
theorem c7_meta_unknown_sentinel (g1 g2 : List (String × String))
    (h1 : g1.lookup "installed" = none) (h2 : g2.lookup "removed" = none) :
    (parseMetaFlags g1).1 = none ∧ (parseMetaFlags g2).2 = none ∧
    (parseMetaFlags g1).1 ≠ some false ∧ (parseMetaFlags g2).2 ≠ some false ∧
    (none : Option Bool) ≠ some false := by
  have e1 : (parseMetaFlags g1).1 = none := by
    simp [parseMetaFlags, parseMetaFlag, h1]
  have e2 : (parseMetaFlags g2).2 = none := by
    simp [parseMetaFlags, parseMetaFlag, h2]
  exact ⟨e1, e2, by rw [e1]; exact (by decide), by rw [e2]; exact (by decide), by decide⟩

/-- Witness for C7: sections missing one flag each. -/
theorem c7_witness :
    (parseMetaFlags [("removed", "true")]).1 = none ∧
    (parseMetaFlags [("installed", "true")]).2 = none ∧
    (parseMetaFlags [("removed", "true")]).1 ≠ some false ∧
    (parseMetaFlags [("installed", "true")]).2 ≠ some false ∧
    (none : Option Bool) ≠ some false :=
  c7_meta_unknown_sentinel [("removed", "true")] [("installed", "true")]
    (by decide) (by decide)

/-- Claim C9: reconciliation of two permuted download sequences against the
same manifest index yields permuted (hence set-equal) unreferenced lists and
the same total unreferenced byte size: classification depends only on each
archive and the immutable index, not on evaluation order. -/
theorem c9_perm_invariant (idx : ModlistIndex) (d1 d2 : List ModArchive)
    (hperm : List.Perm d1 d2) :
    List.Perm (foundList idx d1) (foundList idx d2) ∧
    foundSize idx d1 = foundSize idx d2 := by
  have hf : List.Perm (foundList idx d1) (foundList idx d2) := by
    rw [foundList_eq_filter, foundList_eq_filter]
    exact hperm.filter _
  exact ⟨hf, List.Perm.sum_eq (hf.map ModArchive.file_size)⟩

/-- A second concrete archive, unreferenced by `c3idx`. -/
def c9arch : ModArchive :=
  { path := "dl/baz.zip", meta_path := "dl/baz.zip.meta", name := "baz.zip",
    file_size := 7, fingerprint := "H9", m_installed := none, m_removed := some true }

/-- Witness for C9 on a concrete two-element permutation. -/
theorem c9_witness :
    List.Perm (foundList c3idx [c3arch, c9arch]) (foundList c3idx [c9arch, c3arch]) ∧
    foundSize c3idx [c3arch, c9arch] = foundSize c3idx [c9arch, c3arch] :=
  c9_perm_invariant c3idx [c3arch, c9arch] [c9arch, c3arch] (by decide)

/-! ## Structure of the indexing loop -/

theorem parseStep_ok (idx : ModlistIndex) (r : ModRecord) (idx' : ModlistIndex)
    (h : parseStep idx r = .ok idx') :
    ∃ n hs, r.name = some n ∧ r.hash = some hs ∧
      idx.byFile.lookup n = none ∧ idx.byHash.lookup hs = none ∧
      idx'.byFile = (n, r) :: idx.byFile ∧ idx'.byHash = (hs, r) :: idx.byHash := by
  unfold parseStep at h
  split at h
  · exact Except.noConfusion h
  next n hn =>
    split at h
    · exact Except.noConfusion h
    next hf =>
      split at h
      · exact Except.noConfusion h
      next hs hh =>
        split at h
        · exact Except.noConfusion h
        next hhl =>
          cases h
          exact ⟨n, hs, hn, hh, hf, hhl, rfl, rfl⟩

theorem parseStep_preserves_file (idx idx' : ModlistIndex) (r : ModRecord)
    (h : parseStep idx r = .ok idx') (k : String)
    (hk : (idx.byFile.lookup k).isSome = true) :
    (idx'.byFile.lookup k).isSome = true := by
  obtain ⟨n, hs, _, _, _, _, ef, _⟩ := parseStep_ok idx r idx' h
  rw [ef]
  cases hkn : k == n with
  | true => simp [List.lookup, hkn]
  | false => simpa [List.lookup, hkn] using hk

theorem parseStep_preserves_hash (idx idx' : ModlistIndex) (r : ModRecord)
    (h : parseStep idx r = .ok idx') (k : String)
    (hk : (idx.byHash.lookup k).isSome = true) :
    (idx'.byHash.lookup k).isSome = true := by
  obtain ⟨n, hs, _, _, _, _, _, eh⟩ := parseStep_ok idx r idx' h
  rw [eh]
  cases hkn : k == hs with
  | true => simp [List.lookup, hkn]
  | false => simpa [List.lookup, hkn] using hk

theorem parseGo_no_ok_of_dup_name (l : List ModRecord) (idx : ModlistIndex) (n : String)
    (hk : (idx.byFile.lookup n).isSome = true)
    (hmem : ∃ r ∈ l, r.name = some n) :
    ∀ idx', parseGo idx l ≠ .ok idx' := by
  induction l generalizing idx with
  | nil =>
    obtain ⟨r, hr, _⟩ := hmem
    exact absurd hr (List.not_mem_nil r)
  | cons a rest ih =>
    intro idx' hcontra
    rw [parseGo] at hcontra
    cases hstep : parseStep idx a with
    | error e => rw [hstep] at hcontra; exact Except.noConfusion hcontra
    | ok idx1 =>
      rw [hstep] at hcontra
      obtain ⟨r, hr, hrn⟩ := hmem
      rcases List.mem_cons.mp hr with rfl | hrest
      · obtain ⟨n', hs', hn, _, hf, _, _, _⟩ := parseStep_ok idx r idx1 hstep
        rw [hrn] at hn
        injection hn with e
        rw [← e] at hf
        rw [hf] at hk
        exact absurd hk (by simp)
      · exact ih idx1 (parseStep_preserves_file idx idx1 a hstep n hk)
          ⟨r, hrest, hrn⟩ idx' hcontra

theorem parseGo_no_ok_of_dup_hash (l : List ModRecord) (idx : ModlistIndex) (hsh : String)
    (hk : (idx.byHash.lookup hsh).isSome = true)
    (hmem : ∃ r ∈ l, r.hash = some hsh) :
    ∀ idx', parseGo idx l ≠ .ok idx' := by
  induction l generalizing idx with
  | nil =>
    obtain ⟨r, hr, _⟩ := hmem
    exact absurd hr (List.not_mem_nil r)
  | cons a rest ih =>
    intro idx' hcontra
    rw [parseGo] at hcontra
    cases hstep : parseStep idx a with
    | error e => rw [hstep] at hcontra; exact Except.noConfusion hcontra
    | ok idx1 =>
      rw [hstep] at hcontra
      obtain ⟨r, hr, hrn⟩ := hmem
      rcases List.mem_cons.mp hr with rfl | hrest
      · obtain ⟨n', hs', _, hh, _, hhl, _, _⟩ := parseStep_ok idx r idx1 hstep
        rw [hrn] at hh
        injection hh with e
        rw [← e] at hhl
        rw [hhl] at hk
        exact absurd hk (by simp)
      · exact ih idx1 (parseStep_preserves_hash idx idx1 a hstep hsh hk)
          ⟨r, hrest, hrn⟩ idx' hcontra

theorem parseGo_append (idx : ModlistIndex) (l1 l2 : List ModRecord) :
    parseGo idx (l1 ++ l2) =
      match parseGo idx l1 with
      | .error e => .error e
      | .ok i => parseGo i l2 := by
  induction l1 generalizing idx with
  | nil => simp [parseGo]
  | cons r rest ih =>
    rw [List.cons_append, parseGo, parseGo]
    cases parseStep idx r with
    | error e => rfl
    | ok i => exact ih i

theorem parseGo_ok_file_keys (l : List ModRecord) (idx idx' : ModlistIndex)
    (h : parseGo idx l = .ok idx') (k : String)
    (hk : (idx'.byFile.lookup k).isSome = true) :
    (idx.byFile.lookup k).isSome = true ∨ ∃ r ∈ l, r.name = some k := by
  induction l generalizing idx with
  | nil =>
    rw [parseGo] at h
    injection h with e
    rw [e]
    exact Or.inl hk
  | cons a rest ih =>
    rw [parseGo] at h
    cases hstep : parseStep idx a with
    | error e => rw [hstep] at h; exact Except.noConfusion h
    | ok idx1 =>
      rw [hstep] at h
      rcases ih idx1 h with hin | ⟨r, hr, hrn⟩
      · obtain ⟨n, hs, hn, _, _, _, ef, _⟩ := parseStep_ok idx a idx1 hstep
        rw [ef] at hin
        cases hkn : k == n with
        | true =>
          refine Or.inr ⟨a, List.mem_cons_self a rest, ?_⟩
          rw [hn]
          exact congrArg some (eq_of_beq hkn).symm
        | false =>
          left
          simpa [List.lookup, hkn] using hin
      · exact Or.inr ⟨r, List.mem_cons_of_mem a hr, hrn⟩

theorem parseGo_ok_hash_keys (l : List ModRecord) (idx idx' : ModlistIndex)
    (h : parseGo idx l = .ok idx') (k : String)
    (hk : (idx'.byHash.lookup k).isSome = true) :
    (idx.byHash.lookup k).isSome = true ∨ ∃ r ∈ l, r.hash = some k := by
  induction l generalizing idx with
  | nil =>
    rw [parseGo] at h
    injection h with e
    rw [e]
    exact Or.inl hk
  | cons a rest ih =>
    rw [parseGo] at h
    cases hstep : parseStep idx a with
    | error e => rw [hstep] at h; exact Except.noConfusion h
    | ok idx1 =>
      rw [hstep] at h
      rcases ih idx1 h with hin | ⟨r, hr, hrn⟩
      · obtain ⟨n, hs, _, hh, _, _, _, eh⟩ := parseStep_ok idx a idx1 hstep
        rw [eh] at hin
        cases hkn : k == hs with
        | true =>
          refine Or.inr ⟨a, List.mem_cons_self a rest, ?_⟩
          rw [hh]
          exact congrArg some (eq_of_beq hkn).symm
        | false =>
          left
          simpa [List.lookup, hkn] using hin
      · exact Or.inr ⟨r, List.mem_cons_of_mem a hr, hrn⟩

/-- Claim C4 (amended): for every manifest whose type-filtered record
sequence contains two records at distinct positions sharing a `Name` or
sharing a `Hash`, manifest loading fails fatally, so the pipeline ends
before any reconciliation of downloaded archives begins. -/
theorem c4_dup_filtered_fails (archives l1 l2 l3 : List ModRecord) (r1 r2 : ModRecord)
    (hsplit : iterArchives archives = l1 ++ r1 :: (l2 ++ r2 :: l3))
    (hdup : (∃ n, r1.name = some n ∧ r2.name = some n) ∨
            (∃ hsh, r1.hash = some hsh ∧ r2.hash = some hsh))
    (directory : String) (files : List String) (mkArch : String → ModArchive)
    (dry_run force_delete : Bool) :
    (∃ e, parseModlist archives = .error e) ∧
    (∃ e, runPipeline archives directory files mkArch dry_run force_delete = .error e) := by
  have hfail : ∃ e, parseModlist archives = .error e := by
    unfold parseModlist
    rw [hsplit, parseGo_append]
    cases h1 : parseGo { byFile := [], byHash := [] } l1 with
    | error e => exact ⟨e, rfl⟩
    | ok i1 =>
      show ∃ e, parseGo i1 (r1 :: (l2 ++ r2 :: l3)) = .error e
      rw [parseGo]
      cases h2 : parseStep i1 r1 with
      | error e => exact ⟨e, rfl⟩
      | ok i2 =>
        show ∃ e, parseGo i2 (l2 ++ r2 :: l3) = .error e
        have hmem : r2 ∈ l2 ++ r2 :: l3 := by simp
        have hnotok : ∀ i3, parseGo i2 (l2 ++ r2 :: l3) ≠ .ok i3 := by
          obtain ⟨n', hs', hn, hh, _, _, ef, eh⟩ := parseStep_ok i1 r1 i2 h2
          rcases hdup with ⟨n, hn1, hn2⟩ | ⟨hsh, hh1, hh2⟩
          · apply parseGo_no_ok_of_dup_name (l2 ++ r2 :: l3) i2 n
            · rw [hn1] at hn
              injection hn with e
              rw [ef, ← e]
              simp [List.lookup]
            · exact ⟨r2, hmem, hn2⟩
          · apply parseGo_no_ok_of_dup_hash (l2 ++ r2 :: l3) i2 hsh
            · rw [hh1] at hh
              injection hh with e
              rw [eh, ← e]
              simp [List.lookup]
            · exact ⟨r2, hmem, hh2⟩
        cases h3 : parseGo i2 (l2 ++ r2 :: l3) with
        | error e => exact ⟨e, rfl⟩
        | ok i3 => exact absurd h3 (hnotok i3)
  obtain ⟨e, he⟩ := hfail
  refine ⟨⟨e, he⟩, ⟨e, ?_⟩⟩
  unfold runPipeline
  rw [he]

/-- A `$type` string recognised by the `__iter_archives` filter. -/
def stateNexus : StateRec := { dollarType := some "NexusDownloader, Wabbajack.Lib" }

/-- A filtered manifest record named `a.zip`. -/
def recA : ModRecord := { name := some "a.zip", hash := some "H1", state := some stateNexus }

/-- A second filtered record with the same `Name` as `recA`. -/
def recB : ModRecord := { name := some "a.zip", hash := some "H2", state := some stateNexus }

/-- A record sharing `recA`'s `Name` but lacking a `State`, so the
`__iter_archives` filter skips it. -/
def recNoState : ModRecord := { name := some "a.zip", hash := some "H3", state := none }

/-- Counterexample to C4 as stated: this manifest contains two distinct
archive records sharing the `Name` `a.zip`, yet loading succeeds, because
the record without a `State` is skipped before validation. -/
theorem c4_counterexample :
    recNoState.name = some "a.zip" ∧ recA.name = some "a.zip" ∧ recNoState ≠ recA ∧
    recNoState ∈ [recNoState, recA] ∧ recA ∈ [recNoState, recA] ∧
    exceptIsOk (parseModlist [recNoState, recA]) = true := by
  decide

/-- Witness for the amended C4 on a concrete duplicate-name manifest. -/
theorem c4_witness :
    (∃ e, parseModlist [recA, recB] = .error e) ∧
    (∃ e, runPipeline [recA, recB] "downloads" [] (fun _ => c3arch) false false = .error e) :=
  c4_dup_filtered_fails [recA, recB] [] [] [] recA recB (by decide)
    (Or.inl ⟨"a.zip", rfl, rfl⟩) "downloads" [] (fun _ => c3arch) false false

/-- Claim C8: a manifest record lacking `State`, lacking `$type`, or whose
`$type` does not contain both `NexusDownloader` and `Wabbajack.Lib`, is
skipped entirely by indexing: the parse outcome is the same as if the
record were absent (so its `Name`/`Hash` enter neither mapping and escape
presence/uniqueness validation), and a downloaded archive matching no
filtered record is classified unreferenced even if it matches the skipped
record. -/
theorem c8_skipped_records (l1 l2 : List ModRecord) (r : ModRecord)
    (hfail : passesTypeFilter r = false)
    (idx : ModlistIndex) (a : ModArchive)
    (hparse : parseModlist (l1 ++ r :: l2) = .ok idx)
    (hname : ∀ q ∈ iterArchives (l1 ++ l2), q.name ≠ some a.name)
    (hhash : ∀ q ∈ iterArchives (l1 ++ l2), q.hash ≠ some a.fingerprint) :
    parseModlist (l1 ++ r :: l2) = parseModlist (l1 ++ l2) ∧
    (reconcileArch idx a none).1 = false := by
  have hiter : iterArchives (l1 ++ r :: l2) = iterArchives (l1 ++ l2) := by
    unfold iterArchives
    rw [List.filter_append, List.filter_append, List.filter_cons]
    simp [hfail]
  have heq : parseModlist (l1 ++ r :: l2) = parseModlist (l1 ++ l2) := by
    unfold parseModlist
    rw [hiter]
  refine ⟨heq, ?_⟩
  rw [heq] at hparse
  have hparse' : parseGo { byFile := [], byHash := [] } (iterArchives (l1 ++ l2)) = .ok idx :=
    hparse
  apply (reconcileArch_false_iff idx a).mpr
  constructor
  · unfold getModByFile
    cases hl : idx.byFile.lookup a.name with
    | none => rfl
    | some m =>
      exfalso
      rcases parseGo_ok_file_keys (iterArchives (l1 ++ l2)) _ idx hparse' a.name
          (by rw [hl]; rfl) with hin | ⟨q, hq, hqn⟩
      · exact absurd hin (by simp [List.lookup])
      · exact hname q hq hqn
  · unfold getModByHash
    cases hl : idx.byHash.lookup a.fingerprint with
    | none => rfl
    | some m =>
      exfalso
      rcases parseGo_ok_hash_keys (iterArchives (l1 ++ l2)) _ idx hparse' a.fingerprint
          (by rw [hl]; rfl) with hin | ⟨q, hq, hqn⟩
      · exact absurd hin (by simp [List.lookup])
      · exact hhash q hq hqn

/-- A record skipped by the filter, matching `c8arch` by name and hash. -/
def recNoStateB : ModRecord := { name := some "b.zip", hash := some "HB", state := none }

/-- The index that parsing `[recA, recNoStateB]` produces: only `recA`. -/
def c8idx : ModlistIndex :=
  { byFile := [("a.zip", recA)], byHash := [("H1", recA)] }

/-- An archive matching only the skipped record `recNoStateB`. -/
def c8arch : ModArchive :=
  { path := "dl/b.zip", meta_path := "dl/b.zip.meta", name := "b.zip",
    file_size := 42, fingerprint := "HB", m_installed := none, m_removed := some true }

/-- Witness for C8 on a concrete manifest with one skipped record. -/
theorem c8_witness :
    parseModlist ([recA] ++ recNoStateB :: []) = parseModlist ([recA] ++ []) ∧
    (reconcileArch c8idx c8arch none).1 = false :=
  c8_skipped_records [recA] [] recNoStateB (by decide) c8idx c8arch
    rfl (by decide) (by decide)

theorem downloadsGo_skip_all (directory : String) (mkArch : String → ModArchive)
    (files : List String) (acc : List (String × ModArchive))
    (hfiles : ∀ f ∈ files, archiveExts.contains (splitextExt f) = false) :
    downloadsGo directory mkArch acc files = .ok acc := by
  induction files generalizing acc with
  | nil => rfl
  | cons f rest ih =>
    rw [downloadsGo]
    rw [if_pos (hfiles f (List.mem_cons_self f rest))]
    exact ih acc (fun g hg => hfiles g (List.mem_cons_of_mem f hg))

/-- Claim C10 (amended): when directory enumeration discovers zero candidate
archive files (no listed file carries a whitelisted archive extension), the
run does not abort: `Downloads` is built successfully with an empty archive
set and the pipeline completes normally through the
`All is clean. Nothing to do.` branch, with nothing found and nothing
deleted. -/
theorem c10_zero_archives_normal (archives : List ModRecord) (idx : ModlistIndex)
    (directory : String) (files : List String) (mkArch : String → ModArchive)
    (dry_run force_delete : Bool)
    (hparse : parseModlist archives = .ok idx)
    (hfiles : ∀ f ∈ files, archiveExts.contains (splitextExt f) = false) :
    downloadsInit directory mkArch files = .ok [] ∧
    runPipeline archives directory files mkArch dry_run force_delete =
      .ok { found := [], found_size := 0, deleted := [], refusals := 0, all_clean := true } := by
  have hdl : downloadsInit directory mkArch files = .ok [] :=
    downloadsGo_skip_all directory mkArch files [] hfiles
  refine ⟨hdl, ?_⟩
  unfold runPipeline
  rw [hparse, hdl]
  rfl

/-- Counterexample to C10 as stated: a directory listing with zero candidate
archive files, on which the run completes normally (successful result with
the all-clean report) instead of aborting with a fatal error. -/
theorem c10_counterexample :
    (["readme.txt"].all (fun f => !(archiveExts.contains (splitextExt f)))) = true ∧
    runPipeline [recA] "downloads" ["readme.txt"] (fun _ => c3arch) false false =
      .ok { found := [], found_size := 0, deleted := [], refusals := 0, all_clean := true } ∧
    exceptIsOk (runPipeline [recA] "downloads" ["readme.txt"] (fun _ => c3arch) false false) =
      true := by
  refine ⟨by decide, by rfl, by rfl⟩

/-- Witness for the amended C10 on a concrete empty-candidate listing. -/
theorem c10_witness :
    downloadsInit "downloads" (fun _ => c3arch) ["readme.txt"] = .ok [] ∧
    runPipeline [recA] "downloads" ["readme.txt"] (fun _ => c3arch) true false =
      .ok { found := [], found_size := 0, deleted := [], refusals := 0, all_clean := true } :=
  c10_zero_archives_normal [recA] c8idx "downloads" ["readme.txt"] (fun _ => c3arch)
    true false rfl (by decide)

/-- Modelled from the spec: whether a manifest entry has a corresponding
archive in the download set, matched by name or by content hash. Part of
the missing-archive report of the ReconciliationEngine section, which is
not present in `src/wabbajack_cleaner.py` (its `main` reports only
downloaded archives absent from the manifest). -/
def entryMatched (mods : List ModArchive) (e : ModRecord) : Bool :=
  mods.any (fun a => e.name == some a.name || e.hash == some a.fingerprint)

/-- Modelled from the spec: the missing-archive report list — manifest
entries the directory lacks, excluding entries whose installer state marks
them as sourced from the game's own files (`isGameSourced`, the spec's
substring check on the `$type` discriminator, kept abstract). -/
def missingArchives (entries : List ModRecord) (isGameSourced : ModRecord → Bool)
    (mods : List ModArchive) : List ModRecord :=
  entries.filter (fun e => !(isGameSourced e) && !(entryMatched mods e))

/-- Modelled from the spec: count and total byte size of the missing-archive
report, `entrySize` giving each manifest entry's declared byte size. -/
def missingReport (entrySize : ModRecord → Nat) (entries : List ModRecord)
    (isGameSourced : ModRecord → Bool) (mods : List ModArchive) : Nat × Nat :=
  ((missingArchives entries isGameSourced mods).length,
   ((missingArchives entries isGameSourced mods).map entrySize).sum)

/-- Modelled from the spec: the missing-archive report produced by a run
with the given mode flags; the spec requires the report independent of
simulated/real mode, so the flags do not influence it. -/
def runMissingReport (dry_run force_delete : Bool) (entrySize : ModRecord → Nat)
    (entries : List ModRecord) (isGameSourced : ModRecord → Bool)
    (mods : List ModArchive) : Nat × Nat :=
  missingReport entrySize entries isGameSourced mods

/-- Claim C5: the missing-archive report is the same in simulated and real
mode, and on a manifest with five archive entries of which four are matched
by downloaded files and the fifth is unmatched and not game-file-sourced,
the reported missing-archive count is 1. -/
theorem c5_missing_report (dry1 f1 dry2 f2 : Bool) (entrySize : ModRecord → Nat)
    (e1 e2 e3 e4 e5 : ModRecord) (isGameSourced : ModRecord → Bool)
    (mods : List ModArchive)
    (h1 : entryMatched mods e1 = true) (h2 : entryMatched mods e2 = true)
    (h3 : entryMatched mods e3 = true) (h4 : entryMatched mods e4 = true)
    (h5 : entryMatched mods e5 = false) (hg : isGameSourced e5 = false) :
    runMissingReport dry1 f1 entrySize [e1, e2, e3, e4, e5] isGameSourced mods =
      runMissingReport dry2 f2 entrySize [e1, e2, e3, e4, e5] isGameSourced mods ∧
    (missingReport entrySize [e1, e2, e3, e4, e5] isGameSourced mods).1 = 1 := by
  refine ⟨rfl, ?_⟩
  simp [missingReport, missingArchives, List.filter_cons, h1, h2, h3, h4, h5, hg]

/-- Five concrete manifest entries for the C5 scenario. -/
def c5entry (n : Nat) : ModRecord :=
  { name := some ("mod" ++ toString n ++ ".zip"), hash := some ("K" ++ toString n),
    state := some stateNexus }

/-- A concrete downloaded archive matching `c5entry n` by name. -/
def c5mod (n : Nat) : ModArchive :=
  { path := "dl/mod" ++ toString n ++ ".zip",
    meta_path := "dl/mod" ++ toString n ++ ".zip.meta",
    name := "mod" ++ toString n ++ ".zip", file_size := 10,
    fingerprint := "K" ++ toString n, m_installed := none, m_removed := none }

/-- Witness for C5: five entries, four matching files, fifth entry not
game-file-sourced; the missing-archive count is 1 in both modes. -/
theorem c5_witness :
    runMissingReport true false (fun _ => 10)
        [c5entry 1, c5entry 2, c5entry 3, c5entry 4, c5entry 5] (fun _ => false)
        [c5mod 1, c5mod 2, c5mod 3, c5mod 4] =
      runMissingReport false true (fun _ => 10)
        [c5entry 1, c5entry 2, c5entry 3, c5entry 4, c5entry 5] (fun _ => false)
        [c5mod 1, c5mod 2, c5mod 3, c5mod 4] ∧
    (missingReport (fun _ => 10) [c5entry 1, c5entry 2, c5entry 3, c5entry 4, c5entry 5]
        (fun _ => false) [c5mod 1, c5mod 2, c5mod 3, c5mod 4]).1 = 1 :=
  c5_missing_report true false false true (fun _ => 10)
    (c5entry 1) (c5entry 2) (c5entry 3) (c5entry 4) (c5entry 5) (fun _ => false)
    [c5mod 1, c5mod 2, c5mod 3, c5mod 4]
    (by decide) (by decide) (by decide) (by decide) (by decide) rfl
